import Mathlib

/-!
Verification development for the document-to-LaTeX compilation pipeline of
the living-papers repository.  The definitions below are a shallow embedding
of the compile entry module (`src/output/latex/index.js`, provided as
`src/unnamed/part_000`) and of the filesystem helper `src/util/fs.js`.

Machine model notes:
* JavaScript strings are modelled as Lean `String`; the JS-specific
  behaviours of `slice` (negative indices) and `indexOf` (returning -1)
  are made explicit as `jsSlice` / `jsIndexOfChar` over the character list.
* The document tree (an AST node with a name, a property map, style
  classes, an optional literal value and ordered children) is modelled as
  a mutual inductive `Node` / `NodeList` so that every traversal is
  structurally recursive and kernel-evaluable.
* Asynchronous I/O is modelled as a trace of effects (`Effect`) emitted in
  program order (`Promise.all` arrays are emitted in array order); the
  compile entry returns the effect trace together with an
  `Except Unit (Option String)` outcome (an exception, or the JS return
  value where `none` is `undefined`).
* The modules `ast/index.js` (tree helpers), `tex-format.js` (the
  `TexFormat` class) and `pdflatex.js` are not part of the provided
  sources.  The tree helpers are modelled from the spec's data model
  (section 3): `getPropertyValue`/`setValueProperty` act on a per-node
  key-value property map, `hasClass` consults the style-class set,
  `getChildren` returns the ordered children and `visitNodes` performs a
  full preorder traversal ("visit every node").  The `TexFormat`
  operations are kept abstract as function-valued fields of the
  environment, except `vspace`, modelled from the spec (section 4.1):
  "returns the configured spacing command for the node's semantic name,
  or nothing if unconfigured".  The external `pdflatex` invocation is
  modelled by a success flag in the environment.
-/

namespace LP

/-! ## JavaScript string primitives -/

/-- Truthiness of a JS string: nonempty strings are truthy. -/
def jsTruthy (s : String) : Bool :=
  s ≠ ""

/-- JS `String.prototype.startsWith`, via the character list. -/
def jsStartsWith (s pre : String) : Bool :=
  pre.toList.isPrefixOf s.toList

/-- JS `String.prototype.indexOf` for a single character: index of the first
occurrence, or -1 when absent. -/
def jsIndexOfChar (s : String) (c : Char) : Int :=
  match s.toList.findIdx? (fun x => x = c) with
  | some i => (i : Int)
  | none => -1

/-- Normalization of a JS slice index against the string length: negative
indices count from the end and the result is clamped into `[0, len]`. -/
def jsNormIdx (len i : Int) : Nat :=
  (if i < 0 then max (len + i) 0 else min i len).toNat

/-- JS `String.prototype.slice` with two (possibly negative) indices. -/
def jsSlice (s : String) (start stop : Int) : String :=
  ((s.toList.drop (jsNormIdx (s.toList.length : Int) start)).take
    (jsNormIdx (s.toList.length : Int) stop -
      jsNormIdx (s.toList.length : Int) start)).asString

/-- JS `String.prototype.trim`, over the character list. -/
def jsTrim (s : String) : String :=
  let ws : Char → Bool := fun c => c = ' ' || c = '\n' || c = '\t' || c = '\r'
  (((s.toList.dropWhile ws).reverse.dropWhile ws).reverse).asString

/-- JS `||` on strings: the first operand when truthy, otherwise the second. -/
def jsOr (a b : String) : String :=
  if jsTruthy a then a else b

/-! ## Association lists (JS object property maps and `Map`s) -/

/-- Lookup in a key-value property list (first binding wins). -/
def lookupAssoc : List (String × String) → String → Option String
  | [], _ => none
  | (k, v) :: rest, key => if k = key then some v else lookupAssoc rest key

/-- Set a key in a property list: overwrite the existing binding in place,
or append a fresh binding at the end (JS object/`Map` update semantics). -/
def setAssoc : List (String × String) → String → String → List (String × String)
  | [], k, v => [(k, v)]
  | (k', v') :: rest, k, v =>
      if k' = k then (k, v) :: rest else (k', v') :: setAssoc rest k v

/-! ## The document tree -/

mutual
/-- A document-tree node: semantic name, property map, style classes, an
optional literal value (for text/raw leaves) and ordered children. -/
inductive Node where
  | mk (name : String) (props : List (String × String))
       (classes : List String) (value : Option String)
       (children : NodeList)

/-- An ordered sequence of child nodes. -/
inductive NodeList where
  | nil
  | cons (head : Node) (tail : NodeList)
end

/-- Name of a node. -/
def Node.name : Node → String
  | .mk nm _ _ _ _ => nm

/-- Property map of a node. -/
def Node.props : Node → List (String × String)
  | .mk _ ps _ _ _ => ps

/-- Style classes of a node. -/
def Node.classes : Node → List String
  | .mk _ _ cls _ _ => cls

/-- Literal value of a node, when it is a text/raw leaf. -/
def Node.value : Node → Option String
  | .mk _ _ _ v _ => v

/-- Children of a node. -/
def Node.children : Node → NodeList
  | .mk _ _ _ _ cs => cs

/-- Convert a `NodeList` into a plain list. -/
def NodeList.toList : NodeList → List Node
  | .nil => []
  | .cons n ns => n :: NodeList.toList ns

/-- Modelled from the spec: `getPropertyValue` from `ast/index.js` (not in
the provided sources) reads a property value from the node's key-value map. -/
def getPropertyValue (n : Node) (key : String) : Option String :=
  lookupAssoc n.props key

/-- Modelled from the spec: `setValueProperty` from `ast/index.js` (not in
the provided sources) records a value property on the node. -/
def setValueProperty (n : Node) (key v : String) : Node :=
  match n with
  | .mk nm ps cls val cs => .mk nm (setAssoc ps key v) cls val cs

/-- Modelled from the spec: `hasClass` from `ast/index.js` (not in the
provided sources) tests membership in the node's style-class set. -/
def hasClass (n : Node) (c : String) : Bool :=
  n.classes.contains c

/-- Modelled from the spec: `getChildren` from `ast/index.js` (not in the
provided sources) returns the node's ordered children. -/
def getChildren (n : Node) : List Node :=
  n.children.toList

/-- First child's literal value: the JS expression `node.children[0].value`. -/
def headValue : NodeList → Option String
  | .nil => none
  | .cons c _ => c.value

/-! ## The place resolver (`places` in part_000) -/

/-- Value stored in the place map: the empty-string placeholder set by pass
1, or the claiming figure node installed by pass 2. -/
inductive PlaceVal where
  | empty
  | fig (n : Node)

/-- The place map: ordered key-value bindings, as a JS `Map`. -/
abbrev PlaceMap := List (String × PlaceVal)

/-- Lookup in the place map. -/
def mlookup : PlaceMap → String → Option PlaceVal
  | [], _ => none
  | (k, v) :: rest, key => if k = key then some v else mlookup rest key

/-- JS `Map.prototype.set`: overwrite in place, or append a new binding. -/
def mapSet : PlaceMap → String → PlaceVal → PlaceMap
  | [], k, v => [(k, v)]
  | (k', v') :: rest, k, v =>
      if k' = k then (k, v) :: rest else (k', v') :: mapSet rest k v

/-- JS `Map.prototype.has`. -/
def mapHas (m : PlaceMap) (k : String) : Bool :=
  (mlookup m k).isSome

/-- The placement command marker `\place{`. -/
def placeCmd : String := "\\place\x7b"

/-- Pass-1 per-node action of `places`: for a raw node with format "tex"
whose literal text starts with `\place{`, the identifier sliced out of the
text (JS `text.slice(cmd.length, text.indexOf('}'))`); otherwise nothing.
The JS code reads `node.children[0].value`; a missing first child or a
child without a literal value is treated as no match. -/
def hitId (n : Node) : Option String :=
  if n.name = "raw" ∧ getPropertyValue n "format" = some "tex" then
    match headValue n.children with
    | some text =>
        if jsStartsWith text placeCmd then
          some (jsSlice text (placeCmd.length : Int) (jsIndexOfChar text '\x7d'))
        else none
    | none => none
  else none

mutual
/-- Pass 1 of `places`, translated from the source: preorder visit; a hit
records the identifier on the node as the `place` property and registers it
in the map with the empty placeholder. -/
def p1Node : Node → PlaceMap → Node × PlaceMap
  | n, m =>
    match hitId n with
    | some id =>
        match n with
        | .mk nm ps cls v cs =>
            let r := p1List cs (mapSet m id PlaceVal.empty)
            (.mk nm (setAssoc ps "place" id) cls v r.1, r.2)
    | none =>
        match n with
        | .mk nm ps cls v cs =>
            let r := p1List cs m
            (.mk nm ps cls v r.1, r.2)

/-- Pass 1 of `places` over a child sequence. -/
def p1List : NodeList → PlaceMap → NodeList × PlaceMap
  | .nil, m => (.nil, m)
  | .cons n ns, m =>
    let r := p1Node n m
    let r' := p1List ns r.2
    (.cons r.1 r'.1, r'.2)
end

mutual
/-- Pass 2 of `places`, translated from the source: preorder visit; for a
figure node whose `id` property is truthy and registered in the map, the
map entry is overwritten with the figure node itself. -/
def p2Node : Node → PlaceMap → PlaceMap
  | .mk nm ps cls v cs, m =>
    let n : Node := .mk nm ps cls v cs
    let m' :=
      if n.name = "figure" then
        match getPropertyValue n "id" with
        | some id => if jsTruthy id ∧ mapHas m id then mapSet m id (.fig n) else m
        | none => m
      else m
    p2List cs m'

/-- Pass 2 of `places` over a child sequence. -/
def p2List : NodeList → PlaceMap → PlaceMap
  | .nil, m => m
  | .cons n ns, m => p2List ns (p2Node n m)
end

/-- The two-pass place scan `places(ast)` from the source.  The JS function
mutates the tree in place and returns the map; the pure model returns the
annotated tree alongside the map.  Pass 2 runs only when pass 1 found at
least one identifier (`if (places.size)`). -/
def places (ast : Node) : Node × PlaceMap :=
  let r := p1Node ast []
  if r.2.length ≠ 0 then (r.1, p2Node r.1 r.2) else (r.1, r.2)

/-- The annotated tree produced by the place scan (in JS, the same tree
object after in-place mutation). -/
def placesTree (ast : Node) : Node :=
  (places ast).1

/-- The place map produced by the place scan. -/
def placesMap (ast : Node) : PlaceMap :=
  (places ast).2

/-! ## Characterizations of the place scan used by the proofs -/

mutual
/-- Tree part of pass 1: annotate each hit node with its `place` property. -/
def annTree : Node → Node
  | .mk nm ps cls v cs =>
    match hitId (.mk nm ps cls v cs) with
    | some id => .mk nm (setAssoc ps "place" id) cls v (annList cs)
    | none => .mk nm ps cls v (annList cs)

/-- Tree part of pass 1 over a child sequence. -/
def annList : NodeList → NodeList
  | .nil => .nil
  | .cons n ns => .cons (annTree n) (annList ns)
end

mutual
/-- Identifiers collected by pass 1, in preorder visit order. -/
def idsNode : Node → List String
  | .mk nm ps cls v cs => (hitId (.mk nm ps cls v cs)).toList ++ idsList cs

/-- Identifiers collected by pass 1 over a child sequence. -/
def idsList : NodeList → List String
  | .nil => []
  | .cons n ns => idsNode n ++ idsList ns
end

/-- Map part of pass 1: register each identifier with the empty placeholder. -/
def p1MapFold (l : List String) (m : PlaceMap) : PlaceMap :=
  l.foldl (fun mm id => mapSet mm id PlaceVal.empty) m

mutual
/-- Figure-named nodes of a tree, in preorder visit order. -/
def figsNode : Node → List Node
  | .mk nm ps cls v cs =>
    (if nm = "figure" then [Node.mk nm ps cls v cs] else []) ++ figsList cs

/-- Figure-named nodes of a child sequence. -/
def figsList : NodeList → List Node
  | .nil => []
  | .cons n ns => figsNode n ++ figsList ns
end

/-- Per-figure action of pass 2. -/
def p2Step (m : PlaceMap) (f : Node) : PlaceMap :=
  match getPropertyValue f "id" with
  | some id => if jsTruthy id ∧ mapHas m id then mapSet m id (.fig f) else m
  | none => m

/-- Map part of pass 2 as a fold over the preorder figure list. -/
def p2MapFold (l : List Node) (m : PlaceMap) : PlaceMap :=
  l.foldl p2Step m

mutual
/-- Does some node of the tree satisfy the predicate? -/
def anyNode (p : Node → Bool) : Node → Bool
  | .mk nm ps cls v cs => p (.mk nm ps cls v cs) || anyList p cs

/-- Does some node of the child sequence's trees satisfy the predicate? -/
def anyList (p : Node → Bool) : NodeList → Bool
  | .nil => false
  | .cons n ns => anyNode p n || anyList p ns
end

/-- Last element of the list matching the predicate (later matches shadow
earlier ones, as successive `Map.set` calls do). -/
def lastMatch (p : Node → Bool) : List Node → Option Node
  | [] => none
  | n :: rest =>
    match lastMatch p rest with
    | some f => some f
    | none => if p n then some n else none

/-- The figure nodes of a tree whose `id` property equals the given
identifier, in preorder order. -/
def figsWithId (t : Node) (id : String) : List Node :=
  (figsNode t).filter (fun f => getPropertyValue f "id" = some id)

/-! ## The compile entry (default export of part_000) -/

/-- An author record (only the name matters to the marshalled data). -/
structure Author where
  name : String
deriving DecidableEq

/-- The citation bundle; the `references` list is consumed only by the
abstracted `TexFormat` and is omitted. -/
structure Citations where
  bibtex : List String
deriving DecidableEq

/-- The document metadata record.  Fields fed through `tex.tex` are kept as
optional tree fragments. -/
structure Metadata where
  author : Option (List Author)
  date : Option Node
  title : Option Node
  title_short : Option Node
  author_short : Option Node
  keywords : Option (List String)

/-- The compile context `{citations, metadata, inputDir, inputFile,
outputDir, tempDir, logger}`; the logger is represented by log effects. -/
structure Ctx where
  citations : Option Citations
  metadata : Metadata
  inputDir : String
  inputFile : String
  outputDir : String
  tempDir : String

/-- The recognized compile options.  The mustache delimiter pair `tags` is
absorbed into the abstract template renderer. -/
structure CompileOpts where
  template : String
  pdf : Bool
  latexDir : Option String
  vspace : List (String × String)

/-- A resolved template package: manifest fields plus its directory. -/
structure TemplatePkg where
  template : String
  files : List String
  dir : String
deriving DecidableEq

/-- The per-document record merged into the template.  The JS object gains
the extracted block keys dynamically; they are modelled as fields starting
empty (`data[name] || ''`), except `preamble` which starts at the
graphics-path line. -/
structure RenderData where
  date : String
  title : String
  author : List Author
  author_first : Option Author
  author_rest : List Author
  author_names : String
  title_short : String
  author_short : String
  bibtex : Option String
  keywords : Option String
  preamble : String
  content : String
  abstract : String
  acknowledgments : String
  teaser : String

/-- The environment of a compilation run: filesystem reads, the manifest
parser, the mustache renderer, the abstracted `TexFormat` operations
(tex-format.js is not in the provided sources), the pdflatex outcome and
deterministic host functions (current date, path manipulation). -/
structure CompileEnv where
  readTextFile : String → Except Unit String
  parseManifest : String → Except Unit TemplatePkg
  renderTemplate : String → RenderData → String
  texFn : Option Node → String
  stringFn : String → String
  fragmentFn : Node → String
  labelFn : Node → String → String
  pdflatexOk : Bool
  today : String
  relativePath : String → String → String
  parsedName : String → String
  baseName : String → String

/-- Node `path.join` restricted to the two-argument uses in part_000. -/
def pathJoin (a b : String) : String :=
  a ++ "/" ++ b

/-- Filesystem and logging effects emitted by a compilation run. -/
inductive Effect where
  | mkdir (path : String)
  | write (path : String) (content : String)
  | copyFile (src dst : String)
  | logDebug (msg : String)
  | logError (msg : String)
  | runPdflatex (dir name : String) (bib : Bool)
deriving DecidableEq

/-- The `writeFile` helper from `src/util/fs.js`: a truthy data value is
written, a falsy one (the empty string, for string data) produces no
filesystem write and the JS function returns `null` instead of a promise. -/
def writeFile (p d : String) : Option Effect :=
  if jsTruthy d then some (.write p d) else none

/-- Load a template manifest from a directory: read `package.json`, parse
it, and return the package with its directory attached (`loadTemplate`). -/
def loadTemplate (env : CompileEnv) (dir : String) : Except Unit TemplatePkg :=
  match env.readTextFile (pathJoin dir "package.json") with
  | .error e => .error e
  | .ok s =>
    match env.parseManifest s with
    | .error e => .error e
    | .ok p => .ok { template := p.template, files := p.files, dir := dir }

/-- Directory of the built-in template with the given identifier (the
`fileURLToPath(new URL('../../../latex-templates/<id>/', ...))` path). -/
def builtinTemplateDir (id : String) : String :=
  "../../../latex-templates/" ++ id ++ "/"

/-- Resolve a template identifier (`resolveTemplate`): try the identifier
as a directory relative to the invoking context; on any failure fall back
to the built-in template directory, whose failure propagates. -/
def resolveTemplate (env : CompileEnv) (id : String) : Except Unit TemplatePkg :=
  match loadTemplate env id with
  | .ok p => .ok p
  | .error _ => loadTemplate env (builtinTemplateDir id)

/-- The working directory: `latexDir` option, defaulting to
`<tempDir>/latex` when a PDF is requested and `<outputDir>/latex`
otherwise. -/
def latexDirOf (ctx : Ctx) (opts : CompileOpts) : String :=
  match opts.latexDir with
  | some d => d
  | none => pathJoin (if opts.pdf then ctx.tempDir else ctx.outputDir) "latex"

/-- The `bibtex` flag: `citations?.bibtex?.length > 0`. -/
def bibFlag (ctx : Ctx) : Bool :=
  match ctx.citations with
  | some c => decide (0 < c.bibtex.length)
  | none => false

/-- The bibliography entry list, empty when the bundle is absent. -/
def bibEntries (ctx : Ctx) : List String :=
  match ctx.citations with
  | some c => c.bibtex
  | none => []

/-- The `TexFormat` operations needed by the structural extractor. -/
structure TexFormatCfg where
  fragmentFn : Node → String
  labelFn : Node → String → String
  vspaceCfg : List (String × String)

/-- Modelled from the spec: `tex.vspace` of the missing `tex-format.js`
"returns the configured spacing command for the node's semantic name, or
nothing if unconfigured" (section 4.1); nothing is the empty string. -/
def texVspace (fmt : TexFormatCfg) (nm : String) : String :=
  (lookupAssoc fmt.vspaceCfg nm).getD ""

/-- Content of an extracted block (`extractContent`): the configured
vertical-space command, the whitespace-trimmed formatted inner fragment,
and the figure-category label, concatenated in that order. -/
def extractContent (nm : String) (n : Node) (fmt : TexFormatCfg) : String :=
  texVspace fmt nm ++ jsTrim (fmt.fragmentFn n) ++ fmt.labelFn n "fig"

/-- Classify a top-level child (`extractNode`): abstract and
acknowledgments pass through under their own name, a `latex:preamble` node
contributes its literal text verbatim, a figure with the `teaser` class
becomes the teaser block, everything else is ignored. -/
def extractNode (n : Node) (fmt : TexFormatCfg) : Option (String × String) :=
  if n.name = "abstract" then some ("abstract", extractContent "abstract" n fmt)
  else if n.name = "acknowledgments" then
    some ("acknowledgments", extractContent "acknowledgments" n fmt)
  else if n.name = "latex:preamble" then
    some ("preamble", (headValue n.children).getD "")
  else if n.name = "figure" then
    (if hasClass n "teaser" then some ("teaser", extractContent "teaser" n fmt) else none)
  else none

/-- Merge one extraction result into the render data:
`data[name] = (data[name] || '') + content`. -/
def applyExtract (d : RenderData) (e : Option (String × String)) : RenderData :=
  match e with
  | none => d
  | some (nm, c) =>
    if nm = "abstract" then { d with abstract := d.abstract ++ c }
    else if nm = "acknowledgments" then
      { d with acknowledgments := d.acknowledgments ++ c }
    else if nm = "teaser" then { d with teaser := d.teaser ++ c }
    else if nm = "preamble" then { d with preamble := d.preamble ++ c }
    else d

/-- The extraction pass over the top-level children. -/
def extractAll (fmt : TexFormatCfg) (children : List Node) (d : RenderData) : RenderData :=
  children.foldl (fun acc n => applyExtract acc (extractNode n fmt)) d

/-- The placeholder author substituted when metadata has no author field. -/
def unknownAuthor : Author :=
  { name := "Unknown Author" }

/-- Marshal the template data record from the metadata and the annotated
tree (the `data` object literal in part_000). -/
def marshalData (env : CompileEnv) (ast' : Node) (ctx : Ctx)
    (latexDir articleName : String) (bib : Bool) : RenderData :=
  let author :=
    match ctx.metadata.author with
    | some as => as
    | none => [unknownAuthor]
  { date := jsOr (env.texFn ctx.metadata.date) env.today
    title := jsOr (env.texFn ctx.metadata.title) "Untitled Article"
    author := author
    author_first := author.head?
    author_rest := author.drop 1
    author_names := String.intercalate ", " (author.map Author.name)
    title_short := env.texFn ctx.metadata.title_short
    author_short := env.texFn ctx.metadata.author_short
    bibtex := if bib then some (articleName ++ ".bib") else none
    keywords := ctx.metadata.keywords.map (String.intercalate ", ")
    preamble := "\\graphicspath\x7b\x7b" ++ env.relativePath latexDir ctx.inputDir ++ "\x7d\x7d\n"
    content := jsTrim (env.texFn (some ast'))
    abstract := ""
    acknowledgments := ""
    teaser := "" }

/-- The `TexFormat` configuration built by the compile entry, restricted to
the operations the extractor consumes. -/
def fmtOf (env : CompileEnv) (opts : CompileOpts) : TexFormatCfg :=
  { fragmentFn := env.fragmentFn
    labelFn := env.labelFn
    vspaceCfg := opts.vspace }

/-- The complete render data of a run: marshalled fields plus the
extraction pass over the top-level children of the (in-place annotated)
tree. -/
def renderData (env : CompileEnv) (ast : Node) (ctx : Ctx) (opts : CompileOpts) : RenderData :=
  let ast' := placesTree ast
  extractAll (fmtOf env opts) (getChildren ast')
    (marshalData env ast' ctx (latexDirOf ctx opts) (env.parsedName ctx.inputFile) (bibFlag ctx))

/-- Path of the generated LaTeX source file of a run. -/
def texPathOf (env : CompileEnv) (ctx : Ctx) (opts : CompileOpts) : String :=
  pathJoin (latexDirOf ctx opts) (env.parsedName ctx.inputFile ++ ".tex")

/-- Path of the generated bibliography file of a run. -/
def bibPathOf (env : CompileEnv) (ctx : Ctx) (opts : CompileOpts) : String :=
  pathJoin (latexDirOf ctx opts) (env.parsedName ctx.inputFile ++ ".bib")

/-- Escaped bibliography file content: `tex.string(citations.bibtex.join('\n\n'))`. -/
def bibContentOf (env : CompileEnv) (ctx : Ctx) : String :=
  env.stringFn (String.intercalate "\n\n" (bibEntries ctx))

/-- The compile entry (default export of part_000): emit directory
creations, build the render data, resolve the template, render it, write
the source and bibliography files and the auxiliary copies, then either
drive pdflatex (non-fatally logging a failure) or return the working
directory.  The result is the effect trace in program order together with
the outcome: a thrown error, or the JS return value (`none` is
`undefined`). -/
def compile (env : CompileEnv) (ast : Node) (ctx : Ctx) (opts : CompileOpts) :
    List Effect × Except Unit (Option String) :=
  let latexDir := latexDirOf ctx opts
  let articleName := env.parsedName ctx.inputFile
  let bib := bibFlag ctx
  let dirEffs : List Effect := [.mkdir ctx.outputDir, .mkdir latexDir]
  let data := renderData env ast ctx opts
  match resolveTemplate env opts.template with
  | .error e => (dirEffs, .error e)
  | .ok pkg =>
    match env.readTextFile (pathJoin pkg.dir pkg.template) with
    | .error e => (dirEffs, .error e)
    | .ok tmpl =>
      let content := env.renderTemplate tmpl data
      let texW := writeFile (pathJoin latexDir (articleName ++ ".tex")) content
      let bibW : List Effect :=
        if bib then (writeFile (pathJoin latexDir (articleName ++ ".bib")) (bibContentOf env ctx)).toList
        else []
      let copyEffs : List Effect := pkg.files.map (fun f =>
        .copyFile (pathJoin pkg.dir f) (pathJoin latexDir (env.baseName f)))
      let effs := dirEffs ++ texW.toList ++ bibW ++ copyEffs
      if opts.pdf then
        let effs2 := effs ++
          [.logDebug ("Running pdflatex for " ++ articleName ++ ".tex"),
           .runPdflatex latexDir articleName bib]
        if env.pdflatexOk then
          (effs2 ++ [.copyFile (pathJoin latexDir (articleName ++ ".pdf"))
                      (pathJoin ctx.outputDir (articleName ++ ".pdf"))],
           .ok (some (pathJoin ctx.outputDir (articleName ++ ".pdf"))))
        else
          (effs2 ++ [.logError "Compiling latex PDF"], .ok none)
      else (effs, .ok (some latexDir))

/-- Metadata record with every field absent. -/
def emptyMeta : Metadata :=
  { author := none, date := none, title := none, title_short := none,
    author_short := none, keywords := none }

/-- A minimal environment: all reads fail, all formatter outputs are
empty, pdflatex fails. -/
def trivialEnv : CompileEnv :=
  { readTextFile := fun _ => .error ()
    parseManifest := fun _ => .error ()
    renderTemplate := fun _ _ => ""
    texFn := fun _ => ""
    stringFn := fun s => s
    fragmentFn := fun _ => ""
    labelFn := fun _ _ => ""
    pdflatexOk := false
    today := "January 1, 2020"
    relativePath := fun _ _ => ".."
    parsedName := fun _ => "doc"
    baseName := fun s => s }

/-- An environment where template resolution succeeds and the rendered
template output is nonempty. -/
def okTemplateEnv : CompileEnv :=
  { trivialEnv with
    readTextFile := fun _ => .ok "manifest"
    parseManifest := fun _ => .ok { template := "t.tex", files := [], dir := "" }
    renderTemplate := fun _ _ => "X" }

/-- An environment where template resolution succeeds but the rendered
template output is the empty string (and pdflatex fails). -/
def emptyRenderEnv : CompileEnv :=
  { trivialEnv with
    readTextFile := fun _ => .ok "manifest"
    parseManifest := fun _ => .ok { template := "t.tex", files := [], dir := "" } }

/-- A sample compile context with no citations and empty metadata. -/
def sampleCtx : Ctx :=
  { citations := none, metadata := emptyMeta, inputDir := "in",
    inputFile := "doc.md", outputDir := "out", tempDir := "tmp" }

/-- Options requesting no PDF. -/
def noPdfOpts : CompileOpts :=
  { template := "article", pdf := false, latexDir := none, vspace := [] }

/-- Options requesting a PDF. -/
def pdfOpts : CompileOpts :=
  { template := "article", pdf := true, latexDir := none, vspace := [] }

/-- Options requesting no PDF, with a configured acknowledgments spacing
command. -/
def ackOpts : CompileOpts :=
  { template := "article", pdf := false, latexDir := none,
    vspace := [("acknowledgments", "\\vspace\x7b1em\x7d")] }

/-- Is the effect a filesystem write to the given path? -/
def isWriteTo (p : String) (e : Effect) : Bool :=
  match e with
  | .write q _ => q = p
  | _ => false

/-- Effect `a` occurs strictly before effect `b` in the trace. -/
def precedes (l : List Effect) (a b : Effect) : Prop :=
  ∃ l₁ l₂ l₃, l = l₁ ++ a :: (l₂ ++ b :: l₃)

/-! ## Concrete tree builders (used by the witness theorems) -/

/-- A text leaf carrying a literal value. -/
def textLeaf (text : String) : Node :=
  .mk "textnode" [] [] (some text) .nil

/-- A raw node with format "tex" whose literal text is the given string. -/
def rawTexNode (text : String) : Node :=
  .mk "raw" [("format", "tex")] [] none (.cons (textLeaf text) .nil)

/-- A figure node with the given identifier. -/
def figureNode (id : String) : Node :=
  .mk "figure" [("id", id)] [] none .nil

/-- An acknowledgments node with the given identifier property. -/
def ackNode (id : String) : Node :=
  .mk "acknowledgments" [("id", id)] [] none .nil

/-- An article root with the given children. -/
def articleNode (cs : List Node) : Node :=
  .mk "article" [] [] none (cs.foldr NodeList.cons .nil)

/-! ## Basic lemmas -/

@[simp]
theorem Node.name_mk (nm : String) (ps : List (String × String))
    (cls : List String) (v : Option String) (cs : NodeList) :
    (Node.mk nm ps cls v cs).name = nm := rfl

@[simp]
theorem Node.props_mk (nm : String) (ps : List (String × String))
    (cls : List String) (v : Option String) (cs : NodeList) :
    (Node.mk nm ps cls v cs).props = ps := rfl

@[simp]
theorem Node.classes_mk (nm : String) (ps : List (String × String))
    (cls : List String) (v : Option String) (cs : NodeList) :
    (Node.mk nm ps cls v cs).classes = cls := rfl

@[simp]
theorem Node.value_mk (nm : String) (ps : List (String × String))
    (cls : List String) (v : Option String) (cs : NodeList) :
    (Node.mk nm ps cls v cs).value = v := rfl

@[simp]
theorem Node.children_mk (nm : String) (ps : List (String × String))
    (cls : List String) (v : Option String) (cs : NodeList) :
    (Node.mk nm ps cls v cs).children = cs := rfl

/-- Combined structural induction over `Node` and `NodeList`. -/
theorem nodeInduct {P : Node → Prop} {Q : NodeList → Prop}
    (hmk : ∀ nm ps cls v cs, Q cs → P (.mk nm ps cls v cs))
    (hnil : Q .nil)
    (hcons : ∀ n ns, P n → Q ns → Q (.cons n ns)) :
    (∀ n, P n) ∧ (∀ ns, Q ns) :=
  ⟨fun n => @Node.rec P Q hmk hnil hcons n,
   fun ns => @NodeList.rec P Q hmk hnil hcons ns⟩

theorem lookupAssoc_setAssoc (ps : List (String × String)) (k v k') :
    lookupAssoc (setAssoc ps k v) k' =
      if k = k' then some v else lookupAssoc ps k' := by
  induction ps with
  | nil => simp [setAssoc, lookupAssoc]
  | cons hd tl ih =>
    obtain ⟨hk, hv⟩ := hd
    by_cases h1 : hk = k
    · subst h1
      by_cases h2 : hk = k'
      · simp [setAssoc, lookupAssoc, h2]
      · simp [setAssoc, lookupAssoc, h2]
    · by_cases h2 : hk = k'
      · subst h2
        have hne : ¬ k = hk := fun h => h1 h.symm
        simp [setAssoc, lookupAssoc, h1, hne]
      · simp [setAssoc, lookupAssoc, h1, h2, ih]

theorem setAssoc_setAssoc (ps : List (String × String)) (k v v') :
    setAssoc (setAssoc ps k v) k v' = setAssoc ps k v' := by
  induction ps with
  | nil => simp [setAssoc]
  | cons hd tl ih =>
    obtain ⟨hk, hv⟩ := hd
    by_cases h1 : hk = k
    · simp [setAssoc, h1]
    · simp [setAssoc, h1, ih]

theorem mlookup_mapSet (m : PlaceMap) (k : String) (v : PlaceVal) (k' : String) :
    mlookup (mapSet m k v) k' =
      if k = k' then some v else mlookup m k' := by
  induction m with
  | nil => simp [mapSet, mlookup]
  | cons hd tl ih =>
    obtain ⟨hk, hv⟩ := hd
    by_cases h1 : hk = k
    · subst h1
      by_cases h2 : hk = k'
      · simp [mapSet, mlookup, h2]
      · simp [mapSet, mlookup, h2]
    · by_cases h2 : hk = k'
      · subst h2
        have hne : ¬ k = hk := fun h => h1 h.symm
        simp [mapSet, mlookup, h1, hne]
      · simp [mapSet, mlookup, h1, h2, ih]

theorem mapHas_mapSet (m : PlaceMap) (k : String) (v : PlaceVal) (k' : String) :
    mapHas (mapSet m k v) k' = (decide (k = k') || mapHas m k') := by
  by_cases h : k = k' <;> simp [mapHas, mlookup_mapSet, h]

theorem mapHas_ne_nil (m : PlaceMap) (k : String) (h : mapHas m k = true) :
    m.length ≠ 0 := by
  cases m with
  | nil => simp [mapHas, mlookup] at h
  | cons hd tl => simp

@[simp]
theorem p1MapFold_nil (m : PlaceMap) : p1MapFold [] m = m := rfl

@[simp]
theorem p1MapFold_cons (id : String) (l : List String) (m : PlaceMap) :
    p1MapFold (id :: l) m = p1MapFold l (mapSet m id PlaceVal.empty) := rfl

@[simp]
theorem p1MapFold_append (a b : List String) (m : PlaceMap) :
    p1MapFold (a ++ b) m = p1MapFold b (p1MapFold a m) := by
  simp [p1MapFold, List.foldl_append]

@[simp]
theorem p2MapFold_nil (m : PlaceMap) : p2MapFold [] m = m := rfl

@[simp]
theorem p2MapFold_cons (f : Node) (l : List Node) (m : PlaceMap) :
    p2MapFold (f :: l) m = p2MapFold l (p2Step m f) := rfl

@[simp]
theorem p2MapFold_append (a b : List Node) (m : PlaceMap) :
    p2MapFold (a ++ b) m = p2MapFold b (p2MapFold a m) := by
  simp [p2MapFold, List.foldl_append]

/-! ## Pass 1: annotation preserves the observations it depends on -/

theorem annTree_name (n : Node) : (annTree n).name = n.name := by
  cases n with
  | mk nm ps cls v cs =>
    simp only [annTree]
    split <;> simp

theorem annTree_value (n : Node) : (annTree n).value = n.value := by
  cases n with
  | mk nm ps cls v cs =>
    simp only [annTree]
    split <;> simp

theorem annTree_children (n : Node) : (annTree n).children = annList n.children := by
  cases n with
  | mk nm ps cls v cs =>
    simp only [annTree]
    split <;> simp

theorem annTree_prop (n : Node) (k : String) (hk : k ≠ "place") :
    getPropertyValue (annTree n) k = getPropertyValue n k := by
  cases n with
  | mk nm ps cls v cs =>
    simp only [annTree]
    split
    · have hne : ¬ ("place" = k) := fun h => hk h.symm
      simp [getPropertyValue, lookupAssoc_setAssoc, hne]
    · rfl

theorem headValue_annList (cs : NodeList) :
    headValue (annList cs) = headValue cs := by
  cases cs with
  | nil => simp [annList]
  | cons c cs' => simp [annList, headValue, annTree_value]

theorem hitId_congr (a b : Node) (h1 : a.name = b.name)
    (h2 : getPropertyValue a "format" = getPropertyValue b "format")
    (h3 : headValue a.children = headValue b.children) :
    hitId a = hitId b := by
  unfold hitId
  rw [h1, h2, h3]

theorem hitId_annTree (n : Node) : hitId (annTree n) = hitId n :=
  hitId_congr _ _ (annTree_name n)
    (annTree_prop n "format" (by decide))
    (by rw [annTree_children, headValue_annList])

/-! ## Pass 1 equals the annotation/identifier characterization -/

theorem p1_eq :
    (∀ n, ∀ m, p1Node n m = (annTree n, p1MapFold (idsNode n) m)) ∧
    (∀ ns, ∀ m, p1List ns m = (annList ns, p1MapFold (idsList ns) m)) := by
  refine nodeInduct ?_ ?_ ?_
  · intro nm ps cls v cs ih m
    cases h : hitId (Node.mk nm ps cls v cs) with
    | some id => simp [p1Node, annTree, idsNode, h, ih]
    | none => simp [p1Node, annTree, idsNode, h, ih]
  · intro m
    simp [p1List, annList, idsList]
  · intro n ns ihn ihns m
    simp [p1List, annList, idsList, ihn, ihns]

theorem idsNode_annTree :
    (∀ n, idsNode (annTree n) = idsNode n) ∧
    (∀ ns, idsList (annList ns) = idsList ns) := by
  refine nodeInduct ?_ ?_ ?_
  · intro nm ps cls v cs ih
    have hhit := hitId_annTree (Node.mk nm ps cls v cs)
    cases h : hitId (Node.mk nm ps cls v cs) with
    | some id =>
      rw [h] at hhit
      simp only [annTree, h] at hhit ⊢
      simp [idsNode, h, hhit, ih]
    | none =>
      rw [h] at hhit
      simp only [annTree, h] at hhit ⊢
      simp [idsNode, h, hhit, ih]
  · simp [annList]
  · intro n ns ihn ihns
    simp [annList, idsList, ihn, ihns]

theorem annTree_annTree :
    (∀ n, annTree (annTree n) = annTree n) ∧
    (∀ ns, annList (annList ns) = annList ns) := by
  refine nodeInduct ?_ ?_ ?_
  · intro nm ps cls v cs ih
    have hhit := hitId_annTree (Node.mk nm ps cls v cs)
    cases h : hitId (Node.mk nm ps cls v cs) with
    | some id =>
      rw [h] at hhit
      simp only [annTree, h] at hhit ⊢
      simp [hhit, setAssoc_setAssoc, ih]
    | none =>
      rw [h] at hhit
      simp only [annTree, h] at hhit ⊢
      simp [hhit, ih]
  · simp [annList]
  · intro n ns ihn ihns
    simp [annList, ihn, ihns]

theorem placesTree_eq_annTree (t : Node) : placesTree t = annTree t := by
  simp only [placesTree, places, p1_eq.1 t []]
  split <;> rfl

/-- Full idempotence of the place scan: re-running it on the annotated
tree reproduces both the tree and the map. -/
theorem places_idem (t : Node) : places (placesTree t) = places t := by
  rw [placesTree_eq_annTree]
  simp only [places, p1_eq.1, idsNode_annTree.1, annTree_annTree.1]

/-! ## Pass 2 equals the figure-fold characterization -/

theorem p2_eq :
    (∀ n, ∀ m, p2Node n m = p2MapFold (figsNode n) m) ∧
    (∀ ns, ∀ m, p2List ns m = p2MapFold (figsList ns) m) := by
  refine nodeInduct ?_ ?_ ?_
  · intro nm ps cls v cs ih m
    by_cases h : nm = "figure"
    · simp [p2Node, figsNode, h, ih, p2Step]
    · simp [p2Node, figsNode, h, ih]
  · intro m
    simp [p2List, figsList]
  · intro n ns ihn ihns m
    simp [p2List, figsList, ihn, ihns]

/-- The place map, via the characterizations of the two passes. -/
theorem placesMap_eq (t : Node) :
    placesMap t =
      (if (p1MapFold (idsNode t) []).length ≠ 0 then
        p2MapFold (figsNode (annTree t)) (p1MapFold (idsNode t) [])
      else p1MapFold (idsNode t) []) := by
  simp only [placesMap, places, p1_eq.1, p2_eq.1]
  split <;> rfl

/-! ## Map contents after pass 1 -/

theorem mapHas_p1MapFold (l : List String) :
    ∀ m k, mapHas (p1MapFold l m) k = true ↔ (k ∈ l ∨ mapHas m k = true) := by
  induction l with
  | nil => simp
  | cons id rest ih =>
    intro m k
    rw [p1MapFold_cons, ih]
    by_cases h : id = k
    · subst h
      simp [mapHas_mapSet]
    · have hne : k ≠ id := fun hh => h hh.symm
      simp [mapHas_mapSet, h, hne]

theorem p1MapFold_values_empty (l : List String) :
    ∀ m, (∀ k v, mlookup m k = some v → v = PlaceVal.empty) →
    ∀ k v, mlookup (p1MapFold l m) k = some v → v = PlaceVal.empty := by
  induction l with
  | nil => intro m hm; exact hm
  | cons id rest ih =>
    intro m hm k v
    rw [p1MapFold_cons]
    refine ih _ ?_ k v
    intro k' v' h'
    rw [mlookup_mapSet] at h'
    by_cases hid : id = k'
    · simp [hid] at h'
      exact h'.symm
    · rw [if_neg hid] at h'
      exact hm k' v' h'

theorem mlookup_of_has_empty (m : PlaceMap) (k : String)
    (hall : ∀ k' v, mlookup m k' = some v → v = PlaceVal.empty)
    (h : mapHas m k = true) : mlookup m k = some PlaceVal.empty := by
  unfold mapHas at h
  cases hm : mlookup m k with
  | none => rw [hm] at h; simp at h
  | some v =>
    have hv := hall k v hm
    subst hv
    rfl

/-! ## Map contents after pass 2 -/

theorem mapHas_p2Step (m : PlaceMap) (f : Node) (k : String) :
    mapHas (p2Step m f) k = mapHas m k := by
  cases h : getPropertyValue f "id" with
  | none => simp [p2Step, h]
  | some id =>
    simp only [p2Step, h]
    by_cases hg : jsTruthy id = true ∧ mapHas m id = true
    · rw [if_pos hg, mapHas_mapSet]
      by_cases hik : id = k
      · subst hik
        simp [hg.2]
      · simp [hik]
    · rw [if_neg hg]

theorem mlookup_p2Step_other (m : PlaceMap) (f : Node) (k : String)
    (h : getPropertyValue f "id" ≠ some k) :
    mlookup (p2Step m f) k = mlookup m k := by
  cases hid : getPropertyValue f "id" with
  | none => simp [p2Step, hid]
  | some id =>
    have hik : ¬ (id = k) := fun hh => h (by rw [hid, hh])
    simp only [p2Step, hid]
    split
    · rw [mlookup_mapSet, if_neg hik]
    · rfl

theorem mlookup_p2Step_match (m : PlaceMap) (f : Node) (k : String)
    (h : getPropertyValue f "id" = some k) (hk : jsTruthy k = true)
    (hm : mapHas m k = true) :
    mlookup (p2Step m f) k = some (PlaceVal.fig f) := by
  simp only [p2Step, h]
  rw [if_pos ⟨hk, hm⟩, mlookup_mapSet, if_pos rfl]

theorem mlookup_p2MapFold (k : String) (hk : jsTruthy k = true)
    (l : List Node) :
    ∀ m, mapHas m k = true →
    mlookup (p2MapFold l m) k =
      (match lastMatch (fun f => getPropertyValue f "id" = some k) l with
       | some f => some (PlaceVal.fig f)
       | none => mlookup m k) := by
  induction l with
  | nil => intro m _; simp [lastMatch]
  | cons f rest ih =>
    intro m hm
    rw [p2MapFold_cons, ih _ (by rw [mapHas_p2Step]; exact hm)]
    simp only [lastMatch]
    cases lastMatch (fun f => getPropertyValue f "id" = some k) rest with
    | some g => simp
    | none =>
      simp only []
      by_cases hp : getPropertyValue f "id" = some k
      · rw [mlookup_p2Step_match m f k hp hk hm]
        simp [hp]
      · rw [mlookup_p2Step_other m f k hp]
        simp [hp]

/-! ## Traversal predicates -/

theorem anyNode_mono (p q : Node → Bool) (hpq : ∀ x, p x = true → q x = true) :
    (∀ n, anyNode p n = true → anyNode q n = true) ∧
    (∀ ns, anyList p ns = true → anyList q ns = true) := by
  refine nodeInduct ?_ ?_ ?_
  · intro nm ps cls v cs ih h
    rw [anyNode] at h ⊢
    rcases Bool.or_eq_true_iff.mp h with h1 | h2
    · exact Bool.or_eq_true_iff.mpr (Or.inl (hpq _ h1))
    · exact Bool.or_eq_true_iff.mpr (Or.inr (ih h2))
  · intro h
    exact h
  · intro n ns ihn ihns h
    rw [anyList] at h ⊢
    rcases Bool.or_eq_true_iff.mp h with h1 | h2
    · exact Bool.or_eq_true_iff.mpr (Or.inl (ihn h1))
    · exact Bool.or_eq_true_iff.mpr (Or.inr (ihns h2))

theorem mem_idsNode_of_any (id : String) :
    (∀ n, anyNode (fun x => hitId x = some id) n = true → id ∈ idsNode n) ∧
    (∀ ns, anyList (fun x => hitId x = some id) ns = true → id ∈ idsList ns) := by
  refine nodeInduct ?_ ?_ ?_
  · intro nm ps cls v cs ih h
    rw [anyNode] at h
    rw [idsNode]
    rcases Bool.or_eq_true_iff.mp h with h1 | h2
    · have : hitId (Node.mk nm ps cls v cs) = some id := by
        exact of_decide_eq_true h1
      rw [this]
      simp
    · simp [ih h2]
  · intro h
    simp [anyList] at h
  · intro n ns ihn ihns h
    rw [anyList] at h
    rw [idsList]
    rcases Bool.or_eq_true_iff.mp h with h1 | h2
    · simp [ihn h1]
    · simp [ihns h2]

theorem mapHas_p2MapFold (l : List Node) :
    ∀ m k, mapHas (p2MapFold l m) k = mapHas m k := by
  induction l with
  | nil => intro m k; rfl
  | cons f rest ih =>
    intro m k
    rw [p2MapFold_cons, ih, mapHas_p2Step]

/-- Annotation does not change the truth of a per-node predicate that
ignores children and the `place` property. -/
theorem anyNode_annTree (p : Node → Bool)
    (hchild : ∀ nm ps cls v cs cs',
      p (.mk nm ps cls v cs') = p (.mk nm ps cls v cs))
    (hplace : ∀ nm ps cls v cs id,
      p (.mk nm (setAssoc ps "place" id) cls v cs) = p (.mk nm ps cls v cs)) :
    (∀ n, anyNode p (annTree n) = anyNode p n) ∧
    (∀ ns, anyList p (annList ns) = anyList p ns) := by
  refine nodeInduct ?_ ?_ ?_
  · intro nm ps cls v cs ih
    simp only [annTree]
    split
    · rw [anyNode, anyNode, ih, hplace nm ps cls v (annList cs) _,
        hchild nm ps cls v cs (annList cs)]
    · rw [anyNode, anyNode, ih, hchild nm ps cls v cs (annList cs)]
  · rfl
  · intro n ns ihn ihns
    rw [annList, anyList, anyList, ihn, ihns]

/-- No figure node with the given identifier is collected iff no node of
the tree is a figure with that identifier. -/
theorem figsFilter_nil_iff (id : String) :
    (∀ n, ((figsNode n).filter (fun f => getPropertyValue f "id" = some id) = [] ↔
       anyNode (fun x => x.name = "figure" ∧ getPropertyValue x "id" = some id) n = false)) ∧
    (∀ ns, (figsList ns).filter (fun f => getPropertyValue f "id" = some id) = [] ↔
       anyList (fun x => x.name = "figure" ∧ getPropertyValue x "id" = some id) ns = false) := by
  refine nodeInduct ?_ ?_ ?_
  · intro nm ps cls v cs ih
    rw [figsNode, anyNode, List.filter_append]
    by_cases h : nm = "figure"
    · subst h
      simp [ih]
    · simp [h, ih]
  · simp [figsList, anyList]
  · intro n ns ihn ihns
    rw [figsList, anyList, List.filter_append]
    simp [ihn, ihns]

theorem lastMatch_of_filter_nil (p : Node → Bool) (l : List Node)
    (h : l.filter p = []) : lastMatch p l = none := by
  induction l with
  | nil => rfl
  | cons x rest ih =>
    rw [List.filter_cons] at h
    by_cases hx : p x = true
    · simp [hx] at h
    · simp only [hx, Bool.false_eq_true, if_false] at h
      rw [lastMatch, ih h]
      simp [hx]

theorem lastMatch_of_filter_singleton (p : Node → Bool) (l : List Node) (f : Node)
    (h : l.filter p = [f]) : lastMatch p l = some f := by
  induction l with
  | nil => simp at h
  | cons x rest ih =>
    rw [List.filter_cons] at h
    by_cases hx : p x = true
    · rw [if_pos hx] at h
      obtain ⟨hxf, hrest⟩ := List.cons_eq_cons.mp h
      subst hxf
      rw [lastMatch, lastMatch_of_filter_nil p rest hrest]
      simp [hx]
    · simp only [hx, Bool.false_eq_true, if_false] at h
      rw [lastMatch, ih h]

/-- Compute the identifier extracted by pass 1 at a matching raw node. -/
theorem hitId_eq (n : Node) (text : String)
    (hn : n.name = "raw") (hf : getPropertyValue n "format" = some "tex")
    (ht : headValue n.children = some text) :
    hitId n =
      (if jsStartsWith text placeCmd then
        some (jsSlice text (placeCmd.length : Int) (jsIndexOfChar text '\x7d'))
      else none) := by
  unfold hitId
  rw [hn, hf, ht]
  simp

theorem jsIndexOfChar_of_not_contains (s : String) (c : Char)
    (h : s.toList.contains c = false) : jsIndexOfChar s c = -1 := by
  unfold jsIndexOfChar
  have hnone : s.toList.findIdx? (fun x => x = c) = none := by
    rw [List.findIdx?_eq_none_iff]
    intro x hx
    by_contra hxx
    have hxc : x = c := by
      simpa using of_decide_eq_true (Bool.of_not_eq_false hxx)
    subst hxc
    have hmem : s.toList.contains x = true := List.elem_iff.mpr hx
    rw [hmem] at h
    exact Bool.true_eq_false.mp h
  rw [hnone]

theorem jsSlice_to_neg_one (s : String) (k : Nat) (hk : k ≤ s.toList.length) :
    jsSlice s (k : Int) (-1) = ((s.toList.drop k).dropLast).asString := by
  unfold jsSlice
  have h1 : jsNormIdx (s.toList.length : Int) (k : Int) = k := by
    unfold jsNormIdx
    rw [if_neg (by omega)]
    omega
  have h2 : jsNormIdx (s.toList.length : Int) (-1) = s.toList.length - 1 := by
    unfold jsNormIdx
    rw [if_pos (by omega)]
    omega
  rw [h1, h2, List.dropLast_eq_take]
  have h3 : s.toList.length - 1 - k = (s.toList.drop k).length - 1 := by
    simp
    omega
  rw [h3]

/-- The identifier extracted from a well-delimited `\place{...}` directive
whose text contains no closing brace: the text after the prefix with its
final character removed. -/
theorem hitId_no_brace (n : Node) (text : String)
    (hn : n.name = "raw") (hf : getPropertyValue n "format" = some "tex")
    (ht : headValue n.children = some text)
    (hs : jsStartsWith text placeCmd = true)
    (hb : text.toList.contains '\x7d' = false) :
    hitId n = some (((text.toList.drop placeCmd.length).dropLast).asString) := by
  rw [hitId_eq n text hn hf ht, if_pos hs,
    jsIndexOfChar_of_not_contains text '\x7d' hb]
  have hk : placeCmd.length ≤ text.toList.length := by
    have hp : placeCmd.toList <+: text.toList :=
      List.isPrefixOf_iff_prefix.mp hs
    have hle := hp.length_le
    have hcmd : placeCmd.toList.length = placeCmd.length := by decide
    omega
  rw [jsSlice_to_neg_one text placeCmd.length hk]

/-! ## Claim theorems: the place resolver -/

/-- C1 (counterexample): for the raw tex node with literal text
`\place{figA` (no closing brace), the claim as stated is false: the place
scan does record an entry in the place map and a `place` property on the
node (with the truncated identifier "fig"). -/
theorem claim1_counterexample :
    mapHas (placesMap (rawTexNode "\\place\x7bfigA")) "fig" = true ∧
    getPropertyValue (placesTree (rawTexNode "\\place\x7bfigA")) "place" = some "fig" := by
  constructor
  · decide
  · decide

/-- C1 (amended): for every tree containing a raw node with format "tex"
whose literal text begins with `\place{` but contains no closing brace,
place-map construction does not crash (the scan is a total function), and
the node is treated as having the identifier given by JS
`text.slice(7, -1)` — the text after the prefix with its final character
removed — which is recorded in the place map (with the `place` property
set on the node). -/
theorem claim1_amended (t : Node) (text : String)
    (hnode : anyNode (fun n => n.name = "raw" ∧
      getPropertyValue n "format" = some "tex" ∧
      headValue n.children = some text) t = true)
    (hpre : jsStartsWith text placeCmd = true)
    (hnob : text.toList.contains '\x7d' = false) :
    mapHas (placesMap t)
      (((text.toList.drop placeCmd.length).dropLast).asString) = true := by
  have hhit : anyNode (fun n => hitId n =
      some (((text.toList.drop placeCmd.length).dropLast).asString)) t = true := by
    refine (anyNode_mono _ _ ?_).1 t hnode
    intro x hx
    have hc := of_decide_eq_true hx
    exact decide_eq_true (hitId_no_brace x text hc.1 hc.2.1 hc.2.2 hpre hnob)
  have hmem := (mem_idsNode_of_any _).1 t hhit
  have hhas : mapHas (p1MapFold (idsNode t) []) (((text.toList.drop placeCmd.length).dropLast).asString) = true :=
    (mapHas_p1MapFold _ _ _).mpr (Or.inl hmem)
  rw [placesMap_eq, if_pos (mapHas_ne_nil _ _ hhas), mapHas_p2MapFold]
  exact hhas

/-- C1 (witness): the amended claim at the concrete malformed directive
`\place{figA`. -/
theorem claim1_witness :
    mapHas (placesMap (rawTexNode "\\place\x7bfigA"))
      ((("\\place\x7bfigA".toList.drop placeCmd.length).dropLast).asString) = true :=
  claim1_amended (rawTexNode "\\place\x7bfigA") "\\place\x7bfigA"
    (by decide) (by decide) (by decide)

/-- C7: place resolution is idempotent — running the two-pass scan on the
annotated tree produced by a first run yields the same place map as the
first run. -/
theorem claim7_places_idempotent (t : Node) :
    placesMap (placesTree t) = placesMap t := by
  unfold placesMap
  rw [places_idem]

/-- C2: in a tree containing a raw tex node with text `\place{figA}`, the
place map binds "figA" to the unique figure node with id "figA" of the
(in-place annotated) tree when one exists, and to the empty placeholder
when no figure node of the tree has id "figA". -/
theorem claim2_place_binding (t : Node)
    (hraw : anyNode (fun n => n.name = "raw" ∧
      getPropertyValue n "format" = some "tex" ∧
      headValue n.children = some "\\place\x7bfigA\x7d") t = true) :
    (∀ f, figsWithId (placesTree t) "figA" = [f] →
       mlookup (placesMap t) "figA" = some (PlaceVal.fig f)) ∧
    (anyNode (fun x => x.name = "figure" ∧
        getPropertyValue x "id" = some "figA") t = false →
       mlookup (placesMap t) "figA" = some PlaceVal.empty) := by
  have hhit : anyNode (fun n => hitId n = some "figA") t = true := by
    refine (anyNode_mono _ _ ?_).1 t hraw
    intro x hx
    have hc := of_decide_eq_true hx
    refine decide_eq_true ?_
    rw [hitId_eq x "\\place\x7bfigA\x7d" hc.1 hc.2.1 hc.2.2]
    decide
  have hmem := (mem_idsNode_of_any _).1 t hhit
  have hhas : mapHas (p1MapFold (idsNode t) []) "figA" = true :=
    (mapHas_p1MapFold _ _ _).mpr (Or.inl hmem)
  have hmap : placesMap t =
      p2MapFold (figsNode (annTree t)) (p1MapFold (idsNode t) []) := by
    rw [placesMap_eq, if_pos (mapHas_ne_nil _ _ hhas)]
  have hempty : mlookup (p1MapFold (idsNode t) []) "figA" = some PlaceVal.empty :=
    mlookup_of_has_empty _ _
      (p1MapFold_values_empty (idsNode t) [] (by intro k v h; cases h) )
      hhas
  constructor
  · intro f hf
    rw [placesTree_eq_annTree] at hf
    rw [hmap, mlookup_p2MapFold "figA" (by decide) _ _ hhas,
      lastMatch_of_filter_singleton _ _ f hf]
  · intro hno
    have hno' : anyNode (fun x => x.name = "figure" ∧
        getPropertyValue x "id" = some "figA") (annTree t) = false := by
      rw [(anyNode_annTree _ ?_ ?_).1 t]
      · exact hno
      · intro nm ps cls v cs cs'
        rfl
      · intro nm ps cls v cs id
        have : lookupAssoc (setAssoc ps "place" id) "id" = lookupAssoc ps "id" := by
          rw [lookupAssoc_setAssoc]
          simp
        simp [getPropertyValue, this]
    have hfil : (figsNode (annTree t)).filter
        (fun f => getPropertyValue f "id" = some "figA") = [] :=
      ((figsFilter_nil_iff "figA").1 (annTree t)).mpr hno'
    rw [hmap, mlookup_p2MapFold "figA" (by decide) _ _ hhas,
      lastMatch_of_filter_nil _ _ hfil]
    exact hempty

/-! ## Lemmas about the compile entry -/

theorem texPath_ne_bibPath (a n : String) :
    pathJoin a (n ++ ".tex") ≠ pathJoin a (n ++ ".bib") := by
  intro h
  have h2 : (pathJoin a (n ++ ".tex")).data = (pathJoin a (n ++ ".bib")).data :=
    congrArg String.data h
  have h3 : a.data ++ ("/".data ++ (n.data ++ ".tex".data)) =
      a.data ++ ("/".data ++ (n.data ++ ".bib".data)) := by
    simp only [pathJoin, String.data_append, List.append_assoc] at h2
    exact h2
  have h4 := List.append_cancel_left h3
  have h5 := List.append_cancel_left h4
  have h6 := List.append_cancel_left h5
  simp at h6

theorem mem_writeFile_toList_iff (p d : String) (e : Effect) :
    e ∈ (writeFile p d).toList ↔ (jsTruthy d = true ∧ e = Effect.write p d) := by
  unfold writeFile
  split
  · rename_i h
    simp [h]
  · rename_i h
    simp [h]

theorem writeFile_eq_some (p d : String) (e : Effect)
    (h : writeFile p d = some e) :
    jsTruthy d = true ∧ e = Effect.write p d := by
  unfold writeFile at h
  split at h
  · rename_i hc
    cases h
    exact ⟨hc, rfl⟩
  · cases h

theorem bibFlag_false_of_empty (ctx : Ctx) (h : bibEntries ctx = []) :
    bibFlag ctx = false := by
  unfold bibFlag
  unfold bibEntries at h
  cases hc : ctx.citations with
  | none => rfl
  | some c =>
    rw [hc] at h
    have h' : c.bibtex = [] := h
    simp [h']

theorem applyExtract_author (d : RenderData) (e : Option (String × String)) :
    (applyExtract d e).author = d.author := by
  unfold applyExtract
  cases e with
  | none => rfl
  | some pr =>
    obtain ⟨nm, c⟩ := pr
    dsimp only
    split_ifs <;> rfl

theorem applyExtract_author_first (d : RenderData) (e : Option (String × String)) :
    (applyExtract d e).author_first = d.author_first := by
  unfold applyExtract
  cases e with
  | none => rfl
  | some pr =>
    obtain ⟨nm, c⟩ := pr
    dsimp only
    split_ifs <;> rfl

theorem applyExtract_author_rest (d : RenderData) (e : Option (String × String)) :
    (applyExtract d e).author_rest = d.author_rest := by
  unfold applyExtract
  cases e with
  | none => rfl
  | some pr =>
    obtain ⟨nm, c⟩ := pr
    dsimp only
    split_ifs <;> rfl

theorem applyExtract_author_names (d : RenderData) (e : Option (String × String)) :
    (applyExtract d e).author_names = d.author_names := by
  unfold applyExtract
  cases e with
  | none => rfl
  | some pr =>
    obtain ⟨nm, c⟩ := pr
    dsimp only
    split_ifs <;> rfl

theorem applyExtract_bibtex (d : RenderData) (e : Option (String × String)) :
    (applyExtract d e).bibtex = d.bibtex := by
  unfold applyExtract
  cases e with
  | none => rfl
  | some pr =>
    obtain ⟨nm, c⟩ := pr
    dsimp only
    split_ifs <;> rfl

theorem extractAll_author (fmt : TexFormatCfg) (ns : List Node) :
    ∀ d, (extractAll fmt ns d).author = d.author := by
  induction ns with
  | nil => intro d; rfl
  | cons n rest ih =>
    intro d
    rw [extractAll, List.foldl_cons]
    rw [show List.foldl (fun acc n => applyExtract acc (extractNode n fmt))
        (applyExtract d (extractNode n fmt)) rest =
      extractAll fmt rest (applyExtract d (extractNode n fmt)) from rfl]
    rw [ih, applyExtract_author]

theorem extractAll_author_first (fmt : TexFormatCfg) (ns : List Node) :
    ∀ d, (extractAll fmt ns d).author_first = d.author_first := by
  induction ns with
  | nil => intro d; rfl
  | cons n rest ih =>
    intro d
    rw [extractAll, List.foldl_cons]
    rw [show List.foldl (fun acc n => applyExtract acc (extractNode n fmt))
        (applyExtract d (extractNode n fmt)) rest =
      extractAll fmt rest (applyExtract d (extractNode n fmt)) from rfl]
    rw [ih, applyExtract_author_first]

theorem extractAll_author_rest (fmt : TexFormatCfg) (ns : List Node) :
    ∀ d, (extractAll fmt ns d).author_rest = d.author_rest := by
  induction ns with
  | nil => intro d; rfl
  | cons n rest ih =>
    intro d
    rw [extractAll, List.foldl_cons]
    rw [show List.foldl (fun acc n => applyExtract acc (extractNode n fmt))
        (applyExtract d (extractNode n fmt)) rest =
      extractAll fmt rest (applyExtract d (extractNode n fmt)) from rfl]
    rw [ih, applyExtract_author_rest]

theorem extractAll_author_names (fmt : TexFormatCfg) (ns : List Node) :
    ∀ d, (extractAll fmt ns d).author_names = d.author_names := by
  induction ns with
  | nil => intro d; rfl
  | cons n rest ih =>
    intro d
    rw [extractAll, List.foldl_cons]
    rw [show List.foldl (fun acc n => applyExtract acc (extractNode n fmt))
        (applyExtract d (extractNode n fmt)) rest =
      extractAll fmt rest (applyExtract d (extractNode n fmt)) from rfl]
    rw [ih, applyExtract_author_names]

theorem extractAll_bibtex (fmt : TexFormatCfg) (ns : List Node) :
    ∀ d, (extractAll fmt ns d).bibtex = d.bibtex := by
  induction ns with
  | nil => intro d; rfl
  | cons n rest ih =>
    intro d
    rw [extractAll, List.foldl_cons]
    rw [show List.foldl (fun acc n => applyExtract acc (extractNode n fmt))
        (applyExtract d (extractNode n fmt)) rest =
      extractAll fmt rest (applyExtract d (extractNode n fmt)) from rfl]
    rw [ih, applyExtract_bibtex]

theorem applyExtract_ack (d : RenderData) (n : Node) (fmt : TexFormatCfg) :
    (applyExtract d (extractNode n fmt)).acknowledgments =
      d.acknowledgments ++
        (if n.name = "acknowledgments" then
          extractContent "acknowledgments" n fmt
        else "") := by
  unfold extractNode applyExtract
  split_ifs with h1 h2 h3 h4 h5 <;> simp_all

theorem extractAll_ack (fmt : TexFormatCfg) (ns : List Node) :
    ∀ d, (extractAll fmt ns d).acknowledgments =
      d.acknowledgments ++
        ((ns.filter (fun n => n.name = "acknowledgments")).map
          (fun n => extractContent "acknowledgments" n fmt)).foldr (· ++ ·) "" := by
  induction ns with
  | nil => intro d; simp [extractAll]
  | cons n rest ih =>
    intro d
    rw [extractAll, List.foldl_cons]
    rw [show List.foldl (fun acc n => applyExtract acc (extractNode n fmt))
        (applyExtract d (extractNode n fmt)) rest =
      extractAll fmt rest (applyExtract d (extractNode n fmt)) from rfl]
    rw [ih, applyExtract_ack, List.filter_cons]
    by_cases h : n.name = "acknowledgments"
    · simp [h, String.append_assoc]
    · simp [h]

/-- Every filesystem write emitted by a compilation run is either the
LaTeX source write (with the rendered-template content, which must be
truthy) or the bibliography write (with the escaped entries, only when the
bibliography flag is set); in particular, no write is emitted when
template resolution or the template read fails. -/
theorem mem_compile_write (env : CompileEnv) (ast : Node) (ctx : Ctx)
    (opts : CompileOpts) (p d : String)
    (hmem : Effect.write p d ∈ (compile env ast ctx opts).1) :
    ∃ pkg tmpl, resolveTemplate env opts.template = .ok pkg ∧
      env.readTextFile (pathJoin pkg.dir pkg.template) = .ok tmpl ∧
      ((p = texPathOf env ctx opts ∧
        d = env.renderTemplate tmpl (renderData env ast ctx opts) ∧
        jsTruthy d = true) ∨
       (p = bibPathOf env ctx opts ∧ d = bibContentOf env ctx ∧
        bibFlag ctx = true ∧ jsTruthy d = true)) := by
  cases hres : resolveTemplate env opts.template with
  | error e =>
    simp only [compile, hres] at hmem
    simp at hmem
  | ok pkg =>
    cases hread : env.readTextFile (pathJoin pkg.dir pkg.template) with
    | error e =>
      simp only [compile, hres, hread] at hmem
      simp at hmem
    | ok tmpl =>
      refine ⟨pkg, tmpl, rfl, hread, ?_⟩
      have htex : ∀ h1 : writeFile
          (pathJoin (latexDirOf ctx opts) (env.parsedName ctx.inputFile ++ ".tex"))
          (env.renderTemplate tmpl (renderData env ast ctx opts)) =
            some (Effect.write p d),
          (p = texPathOf env ctx opts ∧
            d = env.renderTemplate tmpl (renderData env ast ctx opts) ∧
            jsTruthy d = true) := by
        intro h1
        obtain ⟨ht, he⟩ := writeFile_eq_some _ _ _ h1
        injection he with hp hd
        exact ⟨hp, hd, by rw [hd]; exact ht⟩
      have hbibw : ∀ h1 : writeFile
          (pathJoin (latexDirOf ctx opts) (env.parsedName ctx.inputFile ++ ".bib"))
          (bibContentOf env ctx) = some (Effect.write p d),
          (p = bibPathOf env ctx opts ∧ d = bibContentOf env ctx ∧
            jsTruthy d = true) := by
        intro h1
        obtain ⟨ht, he⟩ := writeFile_eq_some _ _ _ h1
        injection he with hp hd
        exact ⟨hp, hd, by rw [hd]; exact ht⟩
      cases hbib : bibFlag ctx with
      | false =>
        cases hpdf : opts.pdf with
        | false =>
          simp only [compile, hres, hread, hbib, hpdf] at hmem
          simp at hmem
          exact Or.inl (htex hmem)
        | true =>
          cases hok : env.pdflatexOk with
          | false =>
            simp only [compile, hres, hread, hbib, hpdf, hok] at hmem
            simp at hmem
            exact Or.inl (htex hmem)
          | true =>
            simp only [compile, hres, hread, hbib, hpdf, hok] at hmem
            simp at hmem
            exact Or.inl (htex hmem)
      | true =>
        cases hpdf : opts.pdf with
        | false =>
          simp only [compile, hres, hread, hbib, hpdf] at hmem
          simp at hmem
          rcases hmem with h1 | h1
          · exact Or.inl (htex h1)
          · obtain ⟨hp, hd, ht⟩ := hbibw h1
            exact Or.inr ⟨hp, hd, rfl, ht⟩
        | true =>
          cases hok : env.pdflatexOk with
          | false =>
            simp only [compile, hres, hread, hbib, hpdf, hok] at hmem
            simp at hmem
            rcases hmem with h1 | h1
            · exact Or.inl (htex h1)
            · obtain ⟨hp, hd, ht⟩ := hbibw h1
              exact Or.inr ⟨hp, hd, rfl, ht⟩
          | true =>
            simp only [compile, hres, hread, hbib, hpdf, hok] at hmem
            simp at hmem
            rcases hmem with h1 | h1
            · exact Or.inl (htex h1)
            · obtain ⟨hp, hd, ht⟩ := hbibw h1
              exact Or.inr ⟨hp, hd, rfl, ht⟩

/-- No pdflatex invocation is ever emitted when the pdf option is off,
whatever the resolution outcome. -/
theorem no_pdflatex_of_pdf_false (env : CompileEnv) (ast : Node) (ctx : Ctx)
    (opts : CompileOpts) (h : opts.pdf = false) (dd nme : String) (b : Bool) :
    Effect.runPdflatex dd nme b ∉ (compile env ast ctx opts).1 := by
  intro hmem
  cases hres : resolveTemplate env opts.template with
  | error e =>
    simp only [compile, hres] at hmem
    simp at hmem
  | ok pkg =>
    cases hread : env.readTextFile (pathJoin pkg.dir pkg.template) with
    | error e =>
      simp only [compile, hres, hread] at hmem
      simp at hmem
    | ok tmpl =>
      cases hbib : bibFlag ctx with
      | false =>
        simp only [compile, hres, hread, h, hbib] at hmem
        simp at hmem
        obtain ⟨_, he⟩ := writeFile_eq_some _ _ _ hmem
        exact Effect.noConfusion he
      | true =>
        simp only [compile, hres, hread, h, hbib] at hmem
        simp at hmem
        rcases hmem with h1 | h1 <;>
          exact Effect.noConfusion (writeFile_eq_some _ _ _ h1).2

/-! ## Claim theorems: the compile entry -/

/-- C4: with `pdf: false`, the compilation never invokes pdflatex, and
(when the template resolves and its file is readable) returns the working
directory path. -/
theorem claim4_pdf_false (env : CompileEnv) (ast : Node) (ctx : Ctx)
    (opts : CompileOpts) (h : opts.pdf = false) :
    (∀ dd nme b, Effect.runPdflatex dd nme b ∉ (compile env ast ctx opts).1) ∧
    (∀ pkg tmpl, resolveTemplate env opts.template = .ok pkg →
      env.readTextFile (pathJoin pkg.dir pkg.template) = .ok tmpl →
      (compile env ast ctx opts).2 = .ok (some (latexDirOf ctx opts))) := by
  constructor
  · intro dd nme b
    exact no_pdflatex_of_pdf_false env ast ctx opts h dd nme b
  · intro pkg tmpl h1 h2
    simp only [compile, h1, h2, h]
    simp

/-- C4 (witness): a concrete no-PDF run returns the working directory. -/
theorem claim4_witness :
    (compile okTemplateEnv (articleNode []) sampleCtx noPdfOpts).2 =
      .ok (some (latexDirOf sampleCtx noPdfOpts)) :=
  (claim4_pdf_false okTemplateEnv (articleNode []) sampleCtx noPdfOpts rfl).2
    ⟨"t.tex", [], "article"⟩ "manifest" rfl rfl

/-- C5: template resolution first tries the identifier itself; a primary
success is returned as is, any primary failure silently falls back to the
built-in template directory, whose own outcome (including failure)
propagates to the caller. -/
theorem claim5_template_resolution (env : CompileEnv) (id : String) :
    (∀ p, loadTemplate env id = .ok p → resolveTemplate env id = .ok p) ∧
    (∀ e, loadTemplate env id = .error e →
      resolveTemplate env id = loadTemplate env (builtinTemplateDir id)) := by
  constructor
  · intro p h
    unfold resolveTemplate
    rw [h]
  · intro e h
    unfold resolveTemplate
    rw [h]

/-- C5 (witness): a succeeding primary lookup is taken as is; with a
failing primary lookup the result is exactly the fallback load's result. -/
theorem claim5_witness :
    resolveTemplate okTemplateEnv "article" = .ok ⟨"t.tex", [], "article"⟩ ∧
    resolveTemplate trivialEnv "article" =
      loadTemplate trivialEnv (builtinTemplateDir "article") :=
  ⟨(claim5_template_resolution okTemplateEnv "article").1 ⟨"t.tex", [], "article"⟩ rfl,
   (claim5_template_resolution trivialEnv "article").2 () rfl⟩

/-- C8: with an empty (or absent) bibliography-entry sequence, the render
data's bibtex field is absent and no write to the bibliography path is
ever emitted. -/
theorem claim8_empty_bibliography (env : CompileEnv) (ast : Node) (ctx : Ctx)
    (opts : CompileOpts) (h : bibEntries ctx = []) :
    (renderData env ast ctx opts).bibtex = none ∧
    (∀ d, Effect.write (bibPathOf env ctx opts) d ∉ (compile env ast ctx opts).1) := by
  have hflag := bibFlag_false_of_empty ctx h
  constructor
  · simp only [renderData, extractAll_bibtex]
    simp [marshalData, hflag]
  · intro d hmem
    obtain ⟨pkg, tmpl, hres, hread, hcase⟩ :=
      mem_compile_write env ast ctx opts _ _ hmem
    rcases hcase with ⟨hp, _, _⟩ | ⟨_, _, hflag', _⟩
    · exact texPath_ne_bibPath (latexDirOf ctx opts) (env.parsedName ctx.inputFile) hp.symm
    · rw [hflag] at hflag'
      cases hflag'

/-- C8 (witness): a concrete run with no citation bundle. -/
theorem claim8_witness :
    (renderData okTemplateEnv (articleNode []) sampleCtx noPdfOpts).bibtex = none ∧
    Effect.write (bibPathOf okTemplateEnv sampleCtx noPdfOpts) "entry"
      ∉ (compile okTemplateEnv (articleNode []) sampleCtx noPdfOpts).1 :=
  ⟨(claim8_empty_bibliography okTemplateEnv (articleNode []) sampleCtx noPdfOpts rfl).1,
   (claim8_empty_bibliography okTemplateEnv (articleNode []) sampleCtx noPdfOpts rfl).2 "entry"⟩

/-- C9: with no author field in the metadata, the render data's author
list is the single placeholder author "Unknown Author", the first author
is that placeholder, the rest is empty and the joined name string is
"Unknown Author". -/
theorem claim9_unknown_author (env : CompileEnv) (ast : Node) (ctx : Ctx)
    (opts : CompileOpts) (h : ctx.metadata.author = none) :
    (renderData env ast ctx opts).author = [unknownAuthor] ∧
    (renderData env ast ctx opts).author_first = some unknownAuthor ∧
    (renderData env ast ctx opts).author_rest = [] ∧
    (renderData env ast ctx opts).author_names = "Unknown Author" := by
  refine ⟨?_, ?_, ?_, ?_⟩
  · simp only [renderData, extractAll_author]
    simp [marshalData, h]
  · simp only [renderData, extractAll_author_first]
    simp [marshalData, h]
  · simp only [renderData, extractAll_author_rest]
    simp [marshalData, h]
  · simp only [renderData, extractAll_author_names]
    simp [marshalData, h, unknownAuthor]
    decide

/-- C9 (witness): the defaulted author fields at a concrete run with
author-free metadata. -/
theorem claim9_witness :
    (renderData trivialEnv (articleNode []) sampleCtx noPdfOpts).author = [unknownAuthor] ∧
    (renderData trivialEnv (articleNode []) sampleCtx noPdfOpts).author_first = some unknownAuthor ∧
    (renderData trivialEnv (articleNode []) sampleCtx noPdfOpts).author_rest = [] ∧
    (renderData trivialEnv (articleNode []) sampleCtx noPdfOpts).author_names = "Unknown Author" :=
  claim9_unknown_author trivialEnv (articleNode []) sampleCtx noPdfOpts rfl

/-- C10: the `writeFile` helper performs no write and returns null (`none`)
for the falsy empty-string data; consequently a compilation whose rendered
template output is the empty string emits no write to the `.tex` source
path at all. -/
theorem claim10_writeFile_falsy :
    (∀ p, writeFile p "" = none) ∧
    (∀ env ast ctx opts pkg tmpl,
      resolveTemplate env opts.template = .ok pkg →
      env.readTextFile (pathJoin pkg.dir pkg.template) = .ok tmpl →
      env.renderTemplate tmpl (renderData env ast ctx opts) = "" →
      ∀ d, Effect.write (texPathOf env ctx opts) d ∉ (compile env ast ctx opts).1) := by
  constructor
  · intro p
    rfl
  · intro env ast ctx opts pkg tmpl hres hread hcont d hmem
    obtain ⟨pkg', tmpl', hres', hread', hcase⟩ :=
      mem_compile_write env ast ctx opts _ _ hmem
    rw [hres] at hres'
    injection hres' with e1
    subst e1
    rw [hread] at hread'
    injection hread' with e2
    subst e2
    rcases hcase with ⟨_, hd, ht⟩ | ⟨hp, _, _, _⟩
    · rw [hd, hcont] at ht
      cases ht
    · exact texPath_ne_bibPath (latexDirOf ctx opts) (env.parsedName ctx.inputFile) hp

/-- C10 (witness): no source write is emitted in a concrete run whose
rendered template output is empty. -/
theorem claim10_witness :
    Effect.write (texPathOf emptyRenderEnv sampleCtx pdfOpts) "z"
      ∉ (compile emptyRenderEnv (articleNode []) sampleCtx pdfOpts).1 :=
  claim10_writeFile_falsy.2 emptyRenderEnv (articleNode []) sampleCtx pdfOpts
    ⟨"t.tex", [], "article"⟩ "manifest" rfl rfl rfl "z"

/-- C6: when the top-level children contain exactly two acknowledgments
nodes, the extracted acknowledgments block is the concatenation, in
document order, of each node's content — the configured vertical-space
command for the block name, the whitespace-trimmed formatted inner
fragment, and the figure-category label, in that order. -/
theorem claim6_two_acknowledgments (env : CompileEnv) (ast : Node) (ctx : Ctx)
    (opts : CompileOpts) (n1 n2 : Node)
    (h : (getChildren (placesTree ast)).filter
      (fun n => n.name = "acknowledgments") = [n1, n2]) :
    (renderData env ast ctx opts).acknowledgments =
      (texVspace (fmtOf env opts) "acknowledgments" ++
        jsTrim (env.fragmentFn n1) ++ env.labelFn n1 "fig") ++
      (texVspace (fmtOf env opts) "acknowledgments" ++
        jsTrim (env.fragmentFn n2) ++ env.labelFn n2 "fig") := by
  simp only [renderData]
  rw [extractAll_ack, h]
  simp [marshalData, extractContent, fmtOf, String.append_assoc]

/-- C6 (witness): the two-acknowledgments concatenation at a concrete
tree. -/
theorem claim6_witness :
    (renderData okTemplateEnv (articleNode [ackNode "x", ackNode "y"])
        sampleCtx ackOpts).acknowledgments =
      (texVspace (fmtOf okTemplateEnv ackOpts) "acknowledgments" ++
        jsTrim (okTemplateEnv.fragmentFn (ackNode "x")) ++
        okTemplateEnv.labelFn (ackNode "x") "fig") ++
      (texVspace (fmtOf okTemplateEnv ackOpts) "acknowledgments" ++
        jsTrim (okTemplateEnv.fragmentFn (ackNode "y")) ++
        okTemplateEnv.labelFn (ackNode "y") "fig") :=
  claim6_two_acknowledgments okTemplateEnv (articleNode [ackNode "x", ackNode "y"])
    sampleCtx ackOpts (ackNode "x") (ackNode "y") rfl

/-- C3 (counterexample): a pdf-requested run whose rendered template
output is empty and whose pdflatex invocation fails does invoke pdflatex
(and returns no result), but no `.tex` source write was ever emitted — so
the claim that the source file "has already been written" at the moment of
the compiler invocation is false as stated. -/
theorem claim3_counterexample :
    Effect.runPdflatex (latexDirOf sampleCtx pdfOpts) "doc" false ∈
        (compile emptyRenderEnv (articleNode []) sampleCtx pdfOpts).1 ∧
    (compile emptyRenderEnv (articleNode []) sampleCtx pdfOpts).1.any
        (isWriteTo (texPathOf emptyRenderEnv sampleCtx pdfOpts)) = false ∧
    (compile emptyRenderEnv (articleNode []) sampleCtx pdfOpts).2 = .ok none := by
  refine ⟨by decide, by decide, rfl⟩

/-- C3 (amended): in a pdf-requested run whose pdflatex invocation fails,
the compilation logs the error and returns no result without throwing;
provided the rendered source content is non-empty (`writeFile` skips falsy
data), the source-file write precedes the pdflatex invocation in the
effect trace, and likewise the bibliography write when entries exist and
the escaped bibliography content is non-empty. -/
theorem claim3_amended (env : CompileEnv) (ast : Node) (ctx : Ctx)
    (opts : CompileOpts) (pkg : TemplatePkg) (tmpl : String)
    (hpdf : opts.pdf = true) (hfail : env.pdflatexOk = false)
    (hres : resolveTemplate env opts.template = .ok pkg)
    (hread : env.readTextFile (pathJoin pkg.dir pkg.template) = .ok tmpl)
    (hcontent : jsTruthy (env.renderTemplate tmpl (renderData env ast ctx opts)) = true) :
    (compile env ast ctx opts).2 = .ok none ∧
    Effect.logError "Compiling latex PDF" ∈ (compile env ast ctx opts).1 ∧
    precedes (compile env ast ctx opts).1
      (Effect.write (texPathOf env ctx opts)
        (env.renderTemplate tmpl (renderData env ast ctx opts)))
      (Effect.runPdflatex (latexDirOf ctx opts) (env.parsedName ctx.inputFile)
        (bibFlag ctx)) ∧
    (bibFlag ctx = true → jsTruthy (bibContentOf env ctx) = true →
      precedes (compile env ast ctx opts).1
        (Effect.write (bibPathOf env ctx opts) (bibContentOf env ctx))
        (Effect.runPdflatex (latexDirOf ctx opts) (env.parsedName ctx.inputFile)
          (bibFlag ctx))) := by
  have hw : writeFile
      (pathJoin (latexDirOf ctx opts) (env.parsedName ctx.inputFile ++ ".tex"))
      (env.renderTemplate tmpl (renderData env ast ctx opts)) =
      some (Effect.write (texPathOf env ctx opts)
        (env.renderTemplate tmpl (renderData env ast ctx opts))) := by
    unfold writeFile
    rw [if_pos hcontent]
    rfl
  refine ⟨?_, ?_, ?_, ?_⟩
  · simp only [compile, hres, hread, hpdf, hfail]
    simp
  · simp only [compile, hres, hread, hpdf, hfail]
    simp
  · simp only [compile, hres, hread, hpdf, hfail, hw]
    refine ⟨[Effect.mkdir ctx.outputDir, Effect.mkdir (latexDirOf ctx opts)],
      (if bibFlag ctx then (writeFile
          (pathJoin (latexDirOf ctx opts) (env.parsedName ctx.inputFile ++ ".bib"))
          (bibContentOf env ctx)).toList else []) ++
        pkg.files.map (fun f => Effect.copyFile (pathJoin pkg.dir f)
          (pathJoin (latexDirOf ctx opts) (env.baseName f))) ++
        [Effect.logDebug ("Running pdflatex for " ++
          env.parsedName ctx.inputFile ++ ".tex")],
      [Effect.logError "Compiling latex PDF"], ?_⟩
    simp [texPathOf]
  · intro hbib hbc
    have hwb : writeFile
        (pathJoin (latexDirOf ctx opts) (env.parsedName ctx.inputFile ++ ".bib"))
        (bibContentOf env ctx) =
        some (Effect.write (bibPathOf env ctx opts) (bibContentOf env ctx)) := by
      unfold writeFile
      rw [if_pos hbc]
      rfl
    simp only [compile, hres, hread, hpdf, hfail, hbib, hw, hwb]
    refine ⟨[Effect.mkdir ctx.outputDir, Effect.mkdir (latexDirOf ctx opts),
        Effect.write (texPathOf env ctx opts)
          (env.renderTemplate tmpl (renderData env ast ctx opts))],
      pkg.files.map (fun f => Effect.copyFile (pathJoin pkg.dir f)
        (pathJoin (latexDirOf ctx opts) (env.baseName f))) ++
        [Effect.logDebug ("Running pdflatex for " ++
          env.parsedName ctx.inputFile ++ ".tex")],
      [Effect.logError "Compiling latex PDF"], ?_⟩
    simp [bibPathOf]

/-- C3 (witness): the amended claim at a concrete failing-pdflatex run
with nonempty rendered content. -/
theorem claim3_witness :
    (compile okTemplateEnv (articleNode []) sampleCtx pdfOpts).2 = .ok none ∧
    Effect.logError "Compiling latex PDF" ∈
      (compile okTemplateEnv (articleNode []) sampleCtx pdfOpts).1 ∧
    precedes (compile okTemplateEnv (articleNode []) sampleCtx pdfOpts).1
      (Effect.write (texPathOf okTemplateEnv sampleCtx pdfOpts)
        (okTemplateEnv.renderTemplate "manifest"
          (renderData okTemplateEnv (articleNode []) sampleCtx pdfOpts)))
      (Effect.runPdflatex (latexDirOf sampleCtx pdfOpts)
        (okTemplateEnv.parsedName sampleCtx.inputFile) (bibFlag sampleCtx)) := by
  have h := claim3_amended okTemplateEnv (articleNode []) sampleCtx pdfOpts
    ⟨"t.tex", [], "article"⟩ "manifest" rfl rfl rfl rfl (by decide)
  exact ⟨h.1, h.2.1, h.2.2.1⟩

/-- C2 (witness): the binding branches at two concrete trees — one where a
figure with id "figA" exists elsewhere in the tree, and one without any
matching figure. -/
theorem claim2_witness :
    mlookup (placesMap (articleNode [rawTexNode "\\place\x7bfigA\x7d", figureNode "figA"])) "figA"
      = some (PlaceVal.fig (figureNode "figA")) ∧
    mlookup (placesMap (articleNode [rawTexNode "\\place\x7bfigA\x7d"])) "figA"
      = some PlaceVal.empty :=
  ⟨(claim2_place_binding (articleNode [rawTexNode "\\place\x7bfigA\x7d", figureNode "figA"])
      (by decide)).1 (figureNode "figA") rfl,
   (claim2_place_binding (articleNode [rawTexNode "\\place\x7bfigA\x7d"])
      (by decide)).2 (by decide)⟩

end LP
